import Mathlib

/-!
# Verification of the ddsp replicated key-value store

Shallow embedding of the three Go components (Frontend, Router, Node) of the
ddsp repository, together with proofs of the frozen claims about them.

Modelling conventions:
* `ServiceAddr` is `String` (an opaque address string in the source).
* `RecordID` is `Nat` (an opaque integer-like key in the source).
* Bytes are `List Nat`; only equality of byte sequences matters.
* Go errors are the inductive `Err`; a successful call is `none : Option Err`
  (or `Except.ok`). Transport errors are `Err.transport code`, distinct kinds.
* Go maps (`heartbeat`, the Node record map, the tally maps) are association
  lists queried through a first-match lookup; the iteration order of the
  Put/Del error-tally map, which Go does not specify, is an explicit
  `keyOrder` parameter.
* The two system-wide constants `ReplicationFactor` and `MinRedundancy` live
  in the external `storage` package, so every definition takes them as `Nat`
  arguments (written `R` and `M`).
-/

abbrev ServiceAddr : Type := String

abbrev RecordID : Type := Nat

abbrev Bytes : Type := List Nat

/-- The canonical error kinds of the `storage` package, plus `transport code`
for distinct transport-level failures (tallied as their own kinds). -/
inductive Err : Type where
  | recordExists : Err
  | recordNotFound : Err
  | unknownDaemon : Err
  | notEnoughDaemons : Err
  | quorumNotReached : Err
  | transport (code : Nat) : Err
deriving DecidableEq

/-- The placement function type `router.NodesFinder`: key and candidate list
to ordered replica list. It is an external collaborator, kept abstract. -/
abbrev NodesFinder : Type := RecordID → List ServiceAddr → List ServiceAddr

/-! ## Frontend: the Put/Del quorum fan-out engine (`applyPutDel`) -/

/-- The distinct error kinds occurring in a result list: the key set of Go's
`errCounts` map, in first-occurrence order. -/
def errKeys (results : List (Option Err)) : List Err :=
  (results.filterMap id).dedup

/-- The decision step of `frontend.applyPutDel` after all responses are in:
`okCount` is the number of `none` results, `errCounts` the per-kind counts;
return success if `okCount ≥ M`, else the first error kind in `keyOrder`
(the tally-map iteration order) counted at least `M` times, else
`QuorumNotReached`. -/
def applyPutDelCore (M : Nat) (results : List (Option Err)) (keyOrder : List Err) :
    Option Err :=
  if M ≤ results.count none then
    none
  else
    match keyOrder.find? (fun e => decide (M ≤ results.count (some e))) with
    | some e => some e
    | none => some Err.quorumNotReached

/-- `applyPutDelCore` at one concrete realisation of the map iteration order. -/
def applyPutDelSettle (M : Nat) (results : List (Option Err)) : Option Err :=
  applyPutDelCore M results (errKeys results)

/-- `frontend.applyPutDel`: ask the Router for the replica set (its outcome is
the `nodesRes` argument), propagate a Router error verbatim, fail
`NotEnoughDaemons` when fewer than `M` replicas are returned, otherwise fan
out `op` to every replica and settle the tally. The second component records
the nodes to which RPCs were issued. -/
def applyPutDel (M : Nat) (nodesRes : Except Err (List ServiceAddr))
    (op : ServiceAddr → Option Err) : Option Err × List ServiceAddr :=
  match nodesRes with
  | .error e => (some e, [])
  | .ok nodes =>
    if nodes.length < M then
      (some Err.notEnoughDaemons, [])
    else
      (applyPutDelSettle M (nodes.map op), nodes)

/-! ### Helper lemmas about the quorum decision -/

lemma count_eq_of_perm {α : Type} [BEq α] {l₁ l₂ : List α} (h : l₁.Perm l₂) (a : α) :
    l₁.count a = l₂.count a :=
  h.countP_eq _

lemma mem_errKeys {results : List (Option Err)} {e : Err} :
    e ∈ errKeys results ↔ some e ∈ results := by
  simp [errKeys, List.mem_dedup, List.mem_filterMap]

lemma applyPutDelCore_ok (M : Nat) (results : List (Option Err)) (keyOrder : List Err)
    (h : M ≤ results.count none) :
    applyPutDelCore M results keyOrder = none := by
  simp [applyPutDelCore, h]

lemma applyPutDelCore_err (M : Nat) (results : List (Option Err)) (keyOrder : List Err)
    (e : Err) (h0 : results.count none < M)
    (hcov : ∀ e₂, some e₂ ∈ results → e₂ ∈ keyOrder)
    (hM : M ≤ results.count (some e))
    (huniq : ∀ e₂, some e₂ ∈ results → M ≤ results.count (some e₂) → e₂ = e) :
    applyPutDelCore M results keyOrder = some e := by
  have hnot : ¬ M ≤ results.count none := by omega
  have hMpos : 1 ≤ M := by omega
  have hmem : some e ∈ results := by
    have : 0 < results.count (some e) := by omega
    exact List.count_pos_iff.mp this
  have hkey : e ∈ keyOrder := hcov e hmem
  unfold applyPutDelCore
  rw [if_neg hnot]
  have hsome : (keyOrder.find? (fun e₂ => decide (M ≤ results.count (some e₂)))).isSome := by
    rw [List.find?_isSome]
    exact ⟨e, hkey, by simpa using hM⟩
  rcases hf : keyOrder.find? (fun e₂ => decide (M ≤ results.count (some e₂))) with _ | e₂
  · rw [hf] at hsome; simp at hsome
  · have hpe : M ≤ results.count (some e₂) := by
      have := List.find?_some hf
      simpa using this
    have hmem₂ : some e₂ ∈ results := by
      have : 0 < results.count (some e₂) := by omega
      exact List.count_pos_iff.mp this
    have : e₂ = e := huniq e₂ hmem₂ hpe
    simp [this]

lemma applyPutDelCore_qnr (M : Nat) (results : List (Option Err)) (keyOrder : List Err)
    (h0 : results.count none < M)
    (hall : ∀ e, some e ∈ results → results.count (some e) < M) :
    applyPutDelCore M results keyOrder = some Err.quorumNotReached := by
  have hnot : ¬ M ≤ results.count none := by omega
  unfold applyPutDelCore
  rw [if_neg hnot]
  have hnone : keyOrder.find? (fun e₂ => decide (M ≤ results.count (some e₂))) = none := by
    rw [List.find?_eq_none]
    intro e₂ _ hp
    have hMe : M ≤ results.count (some e₂) := by simpa using hp
    have hMpos : 1 ≤ M := by omega
    have hmem : some e₂ ∈ results := by
      have : 0 < results.count (some e₂) := by omega
      exact List.count_pos_iff.mp this
    have := hall e₂ hmem
    omega
  simp [hnone]

/-! ### Claims C1, C3, C7 about the Put/Del engine -/

/-- C1: when the Router returns at least `M` nodes and each node answers, the
Put/Del engine returns success if at least `M` results are successes;
otherwise, if a single error kind was reported by at least `M` nodes, it
returns that kind; otherwise it returns `QuorumNotReached`. -/
theorem applyPutDel_quorum_spec (M : Nat) (nodes : List ServiceAddr)
    (op : ServiceAddr → Option Err) (hlen : M ≤ nodes.length) :
    (M ≤ (nodes.map op).count none →
      applyPutDel M (.ok nodes) op = (none, nodes)) ∧
    (∀ e : Err, (nodes.map op).count none < M →
      M ≤ (nodes.map op).count (some e) →
      (∀ e₂, some e₂ ∈ nodes.map op → M ≤ (nodes.map op).count (some e₂) → e₂ = e) →
      applyPutDel M (.ok nodes) op = (some e, nodes)) ∧
    ((nodes.map op).count none < M →
      (∀ e, some e ∈ nodes.map op → (nodes.map op).count (some e) < M) →
      applyPutDel M (.ok nodes) op = (some Err.quorumNotReached, nodes)) := by
  have hno : ¬ nodes.length < M := by omega
  refine ⟨fun hok => ?_, fun e h0 hM huniq => ?_, fun h0 hall => ?_⟩
  · simp only [applyPutDel, if_neg hno, applyPutDelSettle]
    rw [applyPutDelCore_ok M (nodes.map op) (errKeys (nodes.map op)) hok]
  · simp only [applyPutDel, if_neg hno, applyPutDelSettle]
    rw [applyPutDelCore_err M (nodes.map op) (errKeys (nodes.map op)) e h0
      (fun e₂ hmem => mem_errKeys.mpr hmem) hM huniq]
  · simp only [applyPutDel, if_neg hno, applyPutDelSettle]
    rw [applyPutDelCore_qnr M (nodes.map op) (errKeys (nodes.map op)) h0 hall]

theorem applyPutDel_quorum_spec_w :
    applyPutDel 2 (.ok ["a", "b", "c"])
      (fun n => if n = "a" then none else some Err.recordExists)
      = (some Err.recordExists, ["a", "b", "c"]) := by
  have hu : ∀ e₂ : Err,
      some e₂ ∈ (["a", "b", "c"].map
        (fun n : ServiceAddr => if n = "a" then none else some Err.recordExists)) →
      2 ≤ ((["a", "b", "c"].map
        (fun n : ServiceAddr => if n = "a" then none else some Err.recordExists)).count
          (some e₂)) → e₂ = Err.recordExists := by
    intro e₂ hmem _
    have hl : (["a", "b", "c"].map
        (fun n : ServiceAddr => if n = "a" then none else some Err.recordExists))
        = [none, some Err.recordExists, some Err.recordExists] := by decide
    rw [hl] at hmem
    simp at hmem
    exact hmem
  exact (applyPutDel_quorum_spec 2 ["a", "b", "c"]
    (fun n => if n = "a" then none else some Err.recordExists) (by decide)).2.1
    Err.recordExists (by decide) (by decide) hu

/-- C3: the Put/Del quorum decision depends only on the multiset of per-node
results: for any fixed tally-map iteration order, permuting the arrival order
of the results leaves the outcome unchanged. -/
theorem applyPutDelCore_perm_invariant (M : Nat) (keyOrder : List Err)
    (rs rs₂ : List (Option Err)) (h : rs.Perm rs₂) :
    applyPutDelCore M rs keyOrder = applyPutDelCore M rs₂ keyOrder := by
  unfold applyPutDelCore
  simp only [count_eq_of_perm h]

theorem applyPutDelCore_perm_invariant_w :
    applyPutDelCore 2 [none, some Err.recordExists] [Err.recordExists]
      = applyPutDelCore 2 [some Err.recordExists, none] [Err.recordExists] :=
  applyPutDelCore_perm_invariant 2 [Err.recordExists] _ _
    (List.Perm.swap (some Err.recordExists) none [])

/-- C7: a Router `NodesFind` error is propagated verbatim by the Put/Del
engine with no node RPC issued, and a successful reply with fewer than `M`
nodes yields `NotEnoughDaemons`, again with no node RPC issued. -/
theorem applyPutDel_router_error_spec (M : Nat) (op : ServiceAddr → Option Err) :
    (∀ e : Err, applyPutDel M (.error e) op = (some e, [])) ∧
    (∀ nodes : List ServiceAddr, nodes.length < M →
      applyPutDel M (.ok nodes) op = (some Err.notEnoughDaemons, [])) := by
  refine ⟨fun e => rfl, fun nodes h => ?_⟩
  simp [applyPutDel, if_pos h]

theorem applyPutDel_router_error_spec_w :
    applyPutDel 2 (.error Err.unknownDaemon) (fun _ => none) = (some Err.unknownDaemon, []) ∧
    applyPutDel 2 (.ok ["a"]) (fun _ => none) = (some Err.notEnoughDaemons, []) :=
  ⟨(applyPutDel_router_error_spec 2 (fun _ => none)).1 Err.unknownDaemon,
   (applyPutDel_router_error_spec 2 (fun _ => none)).2 ["a"] (by decide)⟩

/-! ## Frontend: the Get path -/

/-- One per-replica reply to `NC.Get`: a byte value or an error. -/
inductive GetResp : Type where
  | val (d : Bytes) : GetResp
  | err (e : Err) : GetResp
deriving DecidableEq

/-- The outcome a winning reply produces for the caller. -/
def respOutcome : GetResp → Except Err Bytes
  | .val d => .ok d
  | .err e => .error e

/-- The tally loop of `frontend.Get`, processing replies in arrival order
with the running `dataCounts` and `errCounts` maps: increment the relevant
counter and return immediately once a counter reaches `M`; `none` when the
replies are exhausted without a winner. -/
def getLoop (M : Nat) : List GetResp → (Bytes → Nat) → (Err → Nat) →
    Option (Except Err Bytes)
  | [], _, _ => none
  | .err e :: rest, dc, ec =>
    if M ≤ ec e + 1 then some (.error e)
    else getLoop M rest dc (fun e₂ => if e₂ = e then ec e + 1 else ec e₂)
  | .val d :: rest, dc, ec =>
    if M ≤ dc d + 1 then some (.ok d)
    else getLoop M rest (fun d₂ => if d₂ = d then dc d + 1 else dc d₂) ec

/-- `frontend.Get` after the replica fan-out, as a function of the reply list
in arrival order: run the tally loop from empty counts and fall back to
`QuorumNotReached`. -/
def feGet (M : Nat) (resps : List GetResp) : Except Err Bytes :=
  match getLoop M resps (fun _ => 0) (fun _ => 0) with
  | some out => out
  | none => .error Err.quorumNotReached

/-- The spec's description of the Get decision: scanning the replies in
arrival order, the first reply whose running counter (its number of
occurrences in the prefix processed so far) reaches `M`. `seen` is the prefix
already processed. -/
def getFirstWin (M : Nat) : List GetResp → List GetResp → Option GetResp
  | _, [] => none
  | seen, r :: rest =>
    if M ≤ (seen ++ [r]).count r then some r
    else getFirstWin M (seen ++ [r]) rest

/-- The Get decision as the spec words it: return the payload of the first
reply whose counter reaches `M`, and `QuorumNotReached` if the replies are
exhausted without any counter reaching `M`. -/
def getSpecDecl (M : Nat) (resps : List GetResp) : Except Err Bytes :=
  match getFirstWin M [] resps with
  | some r => respOutcome r
  | none => .error Err.quorumNotReached

/-! ### Helper lemmas about the Get tally -/

lemma getLoop_eq_firstWin (M : Nat) (rest : List GetResp) :
    ∀ seen : List GetResp,
      getLoop M rest (fun d => seen.count (GetResp.val d))
          (fun e => seen.count (GetResp.err e))
        = (getFirstWin M seen rest).map respOutcome := by
  induction rest with
  | nil => intro seen; rfl
  | cons r rest ih =>
    intro seen
    cases r with
    | val d =>
      have hc : (seen ++ [GetResp.val d]).count (GetResp.val d)
          = seen.count (GetResp.val d) + 1 := by
        simp
      by_cases hwin : M ≤ seen.count (GetResp.val d) + 1
      · simp [getLoop, getFirstWin, hc, hwin, respOutcome]
      · have hdc : (fun d₂ => if d₂ = d then seen.count (GetResp.val d) + 1
            else seen.count (GetResp.val d₂))
            = (fun d₂ => (seen ++ [GetResp.val d]).count (GetResp.val d₂)) := by
          funext d₂
          by_cases hd : d₂ = d
          · subst hd; simp [hc]
          · have : GetResp.val d₂ ≠ GetResp.val d := by simp [hd]
            simp [hd, List.count_append, List.count_cons, this]
        have hec : (fun e => seen.count (GetResp.err e))
            = (fun e => (seen ++ [GetResp.val d]).count (GetResp.err e)) := by
          funext e
          simp [List.count_append, List.count_cons]
        simp only [getLoop, if_neg hwin, getFirstWin, hc]
        rw [hdc, hec, ih (seen ++ [GetResp.val d])]
    | err e =>
      have hc : (seen ++ [GetResp.err e]).count (GetResp.err e)
          = seen.count (GetResp.err e) + 1 := by
        simp
      by_cases hwin : M ≤ seen.count (GetResp.err e) + 1
      · simp [getLoop, getFirstWin, hc, hwin, respOutcome]
      · have hec : (fun e₂ => if e₂ = e then seen.count (GetResp.err e) + 1
            else seen.count (GetResp.err e₂))
            = (fun e₂ => (seen ++ [GetResp.err e]).count (GetResp.err e₂)) := by
          funext e₂
          by_cases he : e₂ = e
          · subst he; simp [hc]
          · have : GetResp.err e₂ ≠ GetResp.err e := by simp [he]
            simp [he, List.count_append, List.count_cons, this]
        have hdc : (fun d => seen.count (GetResp.val d))
            = (fun d => (seen ++ [GetResp.err e]).count (GetResp.val d)) := by
          funext d
          simp [List.count_append, List.count_cons]
        simp only [getLoop, if_neg hwin, getFirstWin, hc]
        rw [hdc, hec, ih (seen ++ [GetResp.err e])]

lemma feGet_eq_getSpecDecl (M : Nat) (resps : List GetResp) :
    feGet M resps = getSpecDecl M resps := by
  have h := getLoop_eq_firstWin M resps []
  simp only [List.count_nil] at h
  unfold feGet getSpecDecl
  rw [h]
  cases getFirstWin M [] resps <;> rfl

lemma getFirstWin_count (M : Nat) (rest : List GetResp) :
    ∀ (seen : List GetResp) (r : GetResp),
      getFirstWin M seen rest = some r → M ≤ (seen ++ rest).count r := by
  induction rest with
  | nil => intro seen r h; simp [getFirstWin] at h
  | cons x rest ih =>
    intro seen r h
    by_cases hwin : M ≤ (seen ++ [x]).count x
    · rw [getFirstWin, if_pos hwin] at h
      have hx : x = r := by injection h
      subst hx
      have h1 : (seen ++ [x]).count x = seen.count x + 1 := by simp
      have h2 : seen.count x + 1 ≤ (seen ++ x :: rest).count x := by
        simp only [List.count_append, List.count_cons_self]
        omega
      rw [h1] at hwin
      omega
    · rw [getFirstWin, if_neg hwin] at h
      have := ih (seen ++ [x]) r h
      simpa [List.append_assoc] using this

lemma getFirstWin_mem (M : Nat) (rest : List GetResp) :
    ∀ (seen : List GetResp) (r : GetResp),
      getFirstWin M seen rest = some r → r ∈ rest := by
  induction rest with
  | nil => intro seen r h; simp [getFirstWin] at h
  | cons x rest ih =>
    intro seen r h
    by_cases hwin : M ≤ (seen ++ [x]).count x
    · rw [getFirstWin, if_pos hwin] at h
      cases h
      exact List.mem_cons_self x rest
    · rw [getFirstWin, if_neg hwin] at h
      exact List.mem_cons_of_mem x (ih (seen ++ [x]) r h)

lemma feGet_short (M : Nat) (resps : List GetResp) (h : resps.length < M) :
    feGet M resps = .error Err.quorumNotReached := by
  rw [feGet_eq_getSpecDecl]
  unfold getSpecDecl
  rcases hw : getFirstWin M [] resps with _ | r
  · rfl
  · exfalso
    have hc := getFirstWin_count M resps [] r hw
    simp only [List.nil_append] at hc
    have := List.count_le_length r resps
    omega

/-! ### Claim C2 about the Get decision -/

/-- C2: processing per-replica Get responses in arrival order, `feGet`
returns the payload of the first response whose counter reaches `M`
(`getSpecDecl`, bytes compared by byte-sequence equality), returns
`QuorumNotReached` when no counter reaches `M`, and returns bytes `b` only if
at least `M` replicas returned exactly `b` (one of which is the returned
reply). -/
theorem feGet_spec (M : Nat) (resps : List GetResp) :
    feGet M resps = getSpecDecl M resps ∧
    (∀ b : Bytes, feGet M resps = .ok b →
      M ≤ resps.count (GetResp.val b) ∧ GetResp.val b ∈ resps) := by
  refine ⟨feGet_eq_getSpecDecl M resps, fun b hb => ?_⟩
  rw [feGet_eq_getSpecDecl] at hb
  unfold getSpecDecl at hb
  rcases hw : getFirstWin M [] resps with _ | r
  · rw [hw] at hb; simp at hb
  · rw [hw] at hb
    have hr : r = GetResp.val b := by
      cases r with
      | val d => simp [respOutcome] at hb; simp [hb]
      | err e => simp [respOutcome] at hb
    subst hr
    have hc := getFirstWin_count M resps [] (GetResp.val b) hw
    simp only [List.nil_append] at hc
    exact ⟨hc, getFirstWin_mem M resps [] (GetResp.val b) hw⟩

theorem feGet_spec_w :
    feGet 2 [GetResp.val [104], GetResp.err Err.recordNotFound, GetResp.val [104]]
      = getSpecDecl 2 [GetResp.val [104], GetResp.err Err.recordNotFound, GetResp.val [104]] ∧
    2 ≤ ([GetResp.val [104], GetResp.err Err.recordNotFound,
      GetResp.val [104]].count (GetResp.val [104])) :=
  ⟨(feGet_spec 2 _).1,
   ((feGet_spec 2 [GetResp.val [104], GetResp.err Err.recordNotFound,
      GetResp.val [104]]).2 [104] (by rfl)).1⟩

/-! ## Frontend: roster cache and the full Get call -/

/-- The mutable state of a Frontend: the lazily cached Router roster
(`fe.routerNodes`), absent until the first Get completes its one-shot
initialisation. -/
structure FrontendState : Type where
  routerNodes : Option (List ServiceAddr)

/-- One `frontend.Get` call. When the roster cache is empty the one-shot
initialiser blocks until `Router.List` succeeds; `fetched` is the roster that
eventually successful List RPC returns, and the Bool records whether any List
RPC was issued by this call. The replica set is the placement function
applied to the key and the roster in use; `getOp` gives each replica's reply.
Returns the outcome, the post-call state and the List-RPC flag. -/
def feGetCall (M : Nat) (nf : NodesFinder) (st : FrontendState)
    (fetched : List ServiceAddr) (k : RecordID) (getOp : ServiceAddr → GetResp) :
    Except Err Bytes × FrontendState × Bool :=
  match st.routerNodes with
  | some roster => (feGet M ((nf k roster).map getOp), ⟨some roster⟩, false)
  | none => (feGet M ((nf k fetched).map getOp), ⟨some fetched⟩, true)

/-- A sequence of Get calls, threading the Frontend state; returns the final
state and the total number of List RPCs issued. -/
def feGetSeq (M : Nat) (nf : NodesFinder) :
    FrontendState → List (List ServiceAddr × RecordID × (ServiceAddr → GetResp)) →
    FrontendState × Nat
  | st, [] => (st, 0)
  | st, c :: rest =>
    let r := feGetCall M nf st c.1 c.2.1 c.2.2
    let s := feGetSeq M nf r.2.1 rest
    (s.1, (if r.2.2 then 1 else 0) + s.2)

/-! ### Claims C9, C10 about the Get path -/

/-- C9: once the roster cache holds `roster`, any single Get call uses the
placement of the key over that cached roster, leaves the state unchanged and
issues no List RPC; consequently any sequence of subsequent Get calls leaves
the cache unchanged and issues zero List RPCs. -/
theorem feGet_roster_cached (M : Nat) (nf : NodesFinder) (st : FrontendState)
    (roster : List ServiceAddr) (h : st.routerNodes = some roster) :
    (∀ fetched k getOp,
      feGetCall M nf st fetched k getOp
        = (feGet M ((nf k roster).map getOp), st, false)) ∧
    (∀ calls, feGetSeq M nf st calls = (st, 0)) := by
  have hst : st = ⟨some roster⟩ := by
    cases st
    simp_all
  subst hst
  constructor
  · intro fetched k getOp
    rfl
  · intro calls
    induction calls with
    | nil => rfl
    | cons c rest ih =>
      simp only [feGetSeq, feGetCall]
      rw [ih]
      rfl

theorem feGet_roster_cached_w :
    feGetCall 2 (fun _ c => c) ⟨some ["a", "b"]⟩ ["x"] 7
        (fun _ => GetResp.val [1])
      = (feGet 2 ((["a", "b"]).map (fun _ => GetResp.val [1])), ⟨some ["a", "b"]⟩, false) ∧
    feGetSeq 2 (fun _ c => c) ⟨some ["a", "b"]⟩ [] = (⟨some ["a", "b"]⟩, 0) :=
  ⟨(feGet_roster_cached 2 (fun _ c => c) ⟨some ["a", "b"]⟩ ["a", "b"] rfl).1
      ["x"] 7 (fun _ => GetResp.val [1]),
   (feGet_roster_cached 2 (fun _ c => c) ⟨some ["a", "b"]⟩ ["a", "b"] rfl).2 []⟩

/-- C10: the Get path has no minimum-replica check: when the placement of the
key over the cached roster has fewer than `M` entries (including zero), Get
returns `QuorumNotReached` — never `NotEnoughDaemons` — while the Put/Del
engine in the same situation fails fast with `NotEnoughDaemons`. -/
theorem feGet_no_min_check (M : Nat) (nf : NodesFinder) (roster : List ServiceAddr)
    (fetched : List ServiceAddr) (k : RecordID) (getOp : ServiceAddr → GetResp)
    (hlen : (nf k roster).length < M)
    (nodes : List ServiceAddr) (op : ServiceAddr → Option Err)
    (hn : nodes.length < M) :
    (feGetCall M nf ⟨some roster⟩ fetched k getOp).1 = .error Err.quorumNotReached ∧
    applyPutDel M (.ok nodes) op = (some Err.notEnoughDaemons, []) := by
  constructor
  · show feGet M ((nf k roster).map getOp) = .error Err.quorumNotReached
    exact feGet_short M _ (by simpa using hlen)
  · simp [applyPutDel, if_pos hn]

theorem feGet_no_min_check_w :
    (feGetCall 2 (fun _ _ => ["a"]) ⟨some ["a", "b"]⟩ [] 7
      (fun _ => GetResp.val [1])).1 = .error Err.quorumNotReached ∧
    applyPutDel 2 (.ok ["a"]) (fun _ => none) = (some Err.notEnoughDaemons, []) :=
  feGet_no_min_check 2 (fun _ _ => ["a"]) ["a", "b"] [] 7 (fun _ => GetResp.val [1])
    (by decide) ["a"] (fun _ => none) (by decide)

/-! ## Association tables (Go maps, at lookup granularity) -/

/-- First-match lookup in an association list, the observable behaviour of a
Go map read (later duplicates are shadowed). -/
def tblFind? {κ ν : Type} [DecidableEq κ] : List (κ × ν) → κ → Option ν
  | [], _ => none
  | p :: rest, a => if p.1 = a then some p.2 else tblFind? rest a

/-- Go map write `m[a] = t`: replace the (first) binding of `a`, or append a
new binding when `a` is absent. -/
def tblUpdate {κ ν : Type} [DecidableEq κ] : List (κ × ν) → κ → ν → List (κ × ν)
  | [], a, t => [(a, t)]
  | p :: rest, a, t => if p.1 = a then (a, t) :: rest else p :: tblUpdate rest a t

lemma tblFind?_update_self {κ ν : Type} [DecidableEq κ]
    (tbl : List (κ × ν)) (a : κ) (t : ν) :
    tblFind? (tblUpdate tbl a t) a = some t := by
  induction tbl with
  | nil => simp [tblFind?, tblUpdate]
  | cons p rest ih =>
    by_cases h : p.1 = a
    · simp [tblUpdate, tblFind?, h]
    · simp [tblUpdate, tblFind?, h, ih]

lemma tblFind?_update_ne {κ ν : Type} [DecidableEq κ]
    (tbl : List (κ × ν)) (a b : κ) (t : ν) (hne : b ≠ a) :
    tblFind? (tblUpdate tbl a t) b = tblFind? tbl b := by
  have hab : ¬ ((a : κ) = b) := fun h => hne h.symm
  induction tbl with
  | nil => simp [tblFind?, tblUpdate, hab]
  | cons p rest ih =>
    by_cases h : p.1 = a
    · simp [tblUpdate, tblFind?, h, hab]
    · simp only [tblUpdate, if_neg h, tblFind?]
      by_cases hb : p.1 = b
      · simp [hb]
      · simp [hb, ih]

lemma tblFind?_isSome_iff {κ ν : Type} [DecidableEq κ]
    (tbl : List (κ × ν)) (a : κ) :
    (tblFind? tbl a).isSome ↔ a ∈ tbl.map Prod.fst := by
  induction tbl with
  | nil => simp [tblFind?]
  | cons p rest ih =>
    by_cases h : p.1 = a
    · simp [tblFind?, h]
    · have : ¬ (a = p.1) := fun h₂ => h h₂.symm
      simp [tblFind?, h, this, ih]

lemma tblUpdate_keys {κ ν : Type} [DecidableEq κ]
    (tbl : List (κ × ν)) (a : κ) (t : ν) (h : a ∈ tbl.map Prod.fst) :
    (tblUpdate tbl a t).map Prod.fst = tbl.map Prod.fst := by
  induction tbl with
  | nil => simp at h
  | cons p rest ih =>
    by_cases hp : p.1 = a
    · simp [tblUpdate, hp]
    · have hmem : a ∈ rest.map Prod.fst := by
        have h₂ : a ∈ p.1 :: rest.map Prod.fst := h
        rcases List.mem_cons.mp h₂ with h₁ | h₁
        · exact absurd h₁.symm hp
        · exact h₁
      simp [tblUpdate, hp, ih hmem]

lemma tblFind?_const_map {κ ν : Type} [DecidableEq κ]
    (l : List κ) (t : ν) (a : κ) :
    tblFind? (l.map (fun n => (n, t))) a = if a ∈ l then some t else none := by
  induction l with
  | nil => simp [tblFind?]
  | cons x rest ih =>
    by_cases h : x = a
    · simp [tblFind?, h]
    · have : ¬ (a = x) := fun h₂ => h h₂.symm
      simp [tblFind?, h, this, ih]

/-! ## Router -/

/-- The Router's construction-time configuration: the static roster and the
forget timeout. Timestamps and durations are `Int` (a wall clock; only
differences are compared). -/
structure RouterConfig : Type where
  nodes : List ServiceAddr
  forgetTimeout : Int

/-- The Router's state: the static config plus the heartbeat table. -/
structure RouterState : Type where
  nodes : List ServiceAddr
  forgetTimeout : Int
  heartbeat : List (ServiceAddr × Int)

/-- Reading the heartbeat table as Go does (`r.heartbeat[node]`): a missing
key yields the zero time. -/
def hbRead (hb : List (ServiceAddr × Int)) (a : ServiceAddr) : Int :=
  (tblFind? hb a).getD 0

/-- `router.New`: fail `NotEnoughDaemons` when fewer than `R` nodes are
configured; otherwise seed the heartbeat table with `now` for every roster
node. -/
def routerNew (R : Nat) (cfg : RouterConfig) (now : Int) : Except Err RouterState :=
  if cfg.nodes.length < R then
    .error Err.notEnoughDaemons
  else
    .ok { nodes := cfg.nodes, forgetTimeout := cfg.forgetTimeout,
          heartbeat := cfg.nodes.map (fun n => (n, now)) }

/-- `router.Heartbeat`: fail `UnknownDaemon` when the node has no entry in
the heartbeat table, else stamp it with `now`. Returns the error (if any)
and the post-call state. -/
def routerHeartbeat (r : RouterState) (node : ServiceAddr) (now : Int) :
    Option Err × RouterState :=
  match tblFind? r.heartbeat node with
  | none => (some Err.unknownDaemon, r)
  | some _ =>
    (none, { r with heartbeat := tblUpdate r.heartbeat node now })

/-- The candidate-collection loop of `router.NodesFind`: keep, in placement
order, the candidates whose heartbeat age at `now` is at most the forget
timeout. -/
def collectAlive (hb : List (ServiceAddr × Int)) (ft now : Int) :
    List ServiceAddr → List ServiceAddr
  | [] => []
  | node :: rest =>
    if now - hbRead hb node ≤ ft then node :: collectAlive hb ft now rest
    else collectAlive hb ft now rest

/-- `router.NodesFind`: filter the placement of the key over the roster by
liveness at the captured `now`; fail `NotEnoughDaemons` when fewer than `M`
candidates survive. -/
def routerNodesFind (M : Nat) (nf : NodesFinder) (r : RouterState) (k : RecordID)
    (now : Int) : Except Err (List ServiceAddr) :=
  let found := collectAlive r.heartbeat r.forgetTimeout now (nf k r.nodes)
  if found.length < M then .error Err.notEnoughDaemons else .ok found

lemma collectAlive_eq_filter (hb : List (ServiceAddr × Int)) (ft now : Int)
    (l : List ServiceAddr) :
    collectAlive hb ft now l = l.filter (fun n => decide (now - hbRead hb n ≤ ft)) := by
  induction l with
  | nil => rfl
  | cons x rest ih =>
    by_cases h : now - hbRead hb x ≤ ft
    · simp [collectAlive, h, List.filter, ih]
    · simp [collectAlive, h, List.filter, ih]

/-! ### Claims C4, C5, C6 about the Router -/

/-- C4: `NodesFind` keeps exactly the placement candidates whose heartbeat
age at the captured `now` is at most `ForgetTimeout`, in placement order (the
survivors are a sublist of the placement output), and fails with
`NotEnoughDaemons` exactly when fewer than `M` survive. -/
theorem routerNodesFind_spec (M : Nat) (nf : NodesFinder) (r : RouterState)
    (k : RecordID) (now : Int) :
    (∀ n, n ∈ collectAlive r.heartbeat r.forgetTimeout now (nf k r.nodes) ↔
      n ∈ nf k r.nodes ∧ now - hbRead r.heartbeat n ≤ r.forgetTimeout) ∧
    (collectAlive r.heartbeat r.forgetTimeout now (nf k r.nodes)).Sublist
      (nf k r.nodes) ∧
    (M ≤ (collectAlive r.heartbeat r.forgetTimeout now (nf k r.nodes)).length →
      routerNodesFind M nf r k now
        = .ok (collectAlive r.heartbeat r.forgetTimeout now (nf k r.nodes))) ∧
    ((collectAlive r.heartbeat r.forgetTimeout now (nf k r.nodes)).length < M →
      routerNodesFind M nf r k now = .error Err.notEnoughDaemons) := by
  refine ⟨fun n => ?_, ?_, fun hge => ?_, fun hlt => ?_⟩
  · rw [collectAlive_eq_filter]
    simp [List.mem_filter]
  · rw [collectAlive_eq_filter]
    exact List.filter_sublist _
  · simp only [routerNodesFind]
    rw [if_neg (by omega)]
  · simp only [routerNodesFind]
    rw [if_pos hlt]

theorem routerNodesFind_spec_w :
    routerNodesFind 2 (fun _ c => c)
      ⟨["a", "b"], 10, [("a", 0), ("b", 0)]⟩ 7 5
      = .ok (collectAlive [("a", 0), ("b", 0)] 10 5 ["a", "b"]) :=
  (routerNodesFind_spec 2 (fun _ c => c)
    ⟨["a", "b"], 10, [("a", 0), ("b", 0)]⟩ 7 5).2.2.1 (by decide)

/-- C5: `router.New` fails with `NotEnoughDaemons` exactly when the roster is
smaller than `R`; on success the heartbeat table maps every roster node, and
no other address, to the construction-time `now`. -/
theorem routerNew_spec (R : Nat) (cfg : RouterConfig) (now : Int) :
    (routerNew R cfg now = .error Err.notEnoughDaemons ↔ cfg.nodes.length < R) ∧
    (∀ r, routerNew R cfg now = .ok r →
      r.nodes = cfg.nodes ∧ r.forgetTimeout = cfg.forgetTimeout ∧
      ∀ a, tblFind? r.heartbeat a = if a ∈ cfg.nodes then some now else none) := by
  by_cases h : cfg.nodes.length < R
  · refine ⟨by simp [routerNew, h], fun r hr => ?_⟩
    rw [routerNew, if_pos h] at hr
    exact absurd hr (by simp)
  · refine ⟨by simp [routerNew, h], fun r hr => ?_⟩
    rw [routerNew, if_neg h] at hr
    have hr₂ := (Except.ok.injEq _ _).mp hr
    subst hr₂
    exact ⟨rfl, rfl, fun a => tblFind?_const_map cfg.nodes now a⟩

theorem routerNew_spec_w :
    (routerNew 2 ⟨["a"], 10⟩ 0 = .error Err.notEnoughDaemons ↔
      (["a"] : List ServiceAddr).length < 2) ∧
    tblFind? [("a", (0 : Int)), ("b", 0)] "a"
      = (if "a" ∈ (["a", "b"] : List ServiceAddr) then some (0 : Int) else none) :=
  ⟨(routerNew_spec 2 ⟨["a"], 10⟩ 0).1,
   ((routerNew_spec 2 ⟨["a", "b"], 10⟩ 0).2
      ⟨["a", "b"], 10, [("a", 0), ("b", 0)]⟩ rfl).2.2 "a"⟩

/-- C6: under the invariant that the heartbeat table's keys are exactly the
roster, `Heartbeat` fails with `UnknownDaemon`, leaving the table unchanged,
precisely when the node is outside the roster; on success it stamps the node
with `now`, leaves every other entry unchanged and preserves the key set. -/
theorem routerHeartbeat_spec (r : RouterState) (node : ServiceAddr) (now : Int)
    (hdom : r.heartbeat.map Prod.fst = r.nodes) :
    (node ∉ r.nodes → routerHeartbeat r node now = (some Err.unknownDaemon, r)) ∧
    (node ∈ r.nodes →
      (routerHeartbeat r node now).1 = none ∧
      tblFind? (routerHeartbeat r node now).2.heartbeat node = some now ∧
      (∀ a, a ≠ node →
        tblFind? (routerHeartbeat r node now).2.heartbeat a = tblFind? r.heartbeat a) ∧
      (routerHeartbeat r node now).2.nodes = r.nodes ∧
      (routerHeartbeat r node now).2.heartbeat.map Prod.fst = r.nodes) := by
  constructor
  · intro hout
    have hnone : tblFind? r.heartbeat node = none := by
      rw [← Option.not_isSome_iff_eq_none]
      rw [tblFind?_isSome_iff, hdom]
      exact hout
    simp [routerHeartbeat, hnone]
  · intro hin
    have hsome : (tblFind? r.heartbeat node).isSome := by
      rw [tblFind?_isSome_iff, hdom]
      exact hin
    obtain ⟨t, ht⟩ := Option.isSome_iff_exists.mp hsome
    have hkeys : node ∈ r.heartbeat.map Prod.fst := by rw [hdom]; exact hin
    refine ⟨by simp [routerHeartbeat, ht], ?_, fun a hne => ?_, ?_, ?_⟩
    · simp only [routerHeartbeat, ht]
      exact tblFind?_update_self r.heartbeat node now
    · simp only [routerHeartbeat, ht]
      exact tblFind?_update_ne r.heartbeat node a now hne
    · simp [routerHeartbeat, ht]
    · simp only [routerHeartbeat, ht]
      rw [tblUpdate_keys r.heartbeat node now hkeys, hdom]

theorem routerHeartbeat_spec_w :
    routerHeartbeat ⟨["a", "b"], 10, [("a", 0), ("b", 0)]⟩ "c" 5
      = (some Err.unknownDaemon, ⟨["a", "b"], 10, [("a", 0), ("b", 0)]⟩) ∧
    tblFind?
      (routerHeartbeat ⟨["a", "b"], 10, [("a", 0), ("b", 0)]⟩ "a" 5).2.heartbeat
      "a" = some 5 :=
  ⟨(routerHeartbeat_spec ⟨["a", "b"], 10, [("a", 0), ("b", 0)]⟩ "c" 5 rfl).1
      (by decide),
   ((routerHeartbeat_spec ⟨["a", "b"], 10, [("a", 0), ("b", 0)]⟩ "a" 5 rfl).2
      (by decide)).2.1⟩

/-! ## Node and claim C8 -/

/-- `node.Put`: refuse with `RecordExists` when the key already has a record,
leaving the map untouched; otherwise store the bytes under the key. Returns
the error (if any) and the post-call record map. -/
def nodePut (st : List (RecordID × Bytes)) (k : RecordID) (d : Bytes) :
    Option Err × List (RecordID × Bytes) :=
  match tblFind? st k with
  | some _ => (some Err.recordExists, st)
  | none => (none, tblUpdate st k d)

/-- C8: `node.Put` returns `RecordExists` exactly when a record for the key
is present, and then the whole map (the stored bytes included) is unchanged;
when the key is absent it stores the bytes under the key and leaves every
other key's binding unchanged. -/
theorem nodePut_spec (st : List (RecordID × Bytes)) (k : RecordID) (d : Bytes) :
    ((nodePut st k d).1 = some Err.recordExists ↔ (tblFind? st k).isSome) ∧
    ((tblFind? st k).isSome → nodePut st k d = (some Err.recordExists, st)) ∧
    (tblFind? st k = none →
      (nodePut st k d).1 = none ∧
      tblFind? (nodePut st k d).2 k = some d ∧
      ∀ k₂, k₂ ≠ k → tblFind? (nodePut st k d).2 k₂ = tblFind? st k₂) := by
  rcases h : tblFind? st k with _ | v
  · refine ⟨by simp [nodePut, h], by simp [h], fun _ => ?_⟩
    exact ⟨by simp [nodePut, h],
      by simp only [nodePut, h]; exact tblFind?_update_self st k d,
      fun k₂ hne => by simp only [nodePut, h]; exact tblFind?_update_ne st k k₂ d hne⟩
  · exact ⟨by simp [nodePut, h], fun _ => by simp [nodePut, h], fun hn => by simp [h] at hn⟩

theorem nodePut_spec_w :
    nodePut [(1, [7])] 1 [9] = (some Err.recordExists, [(1, [7])]) ∧
    tblFind? (nodePut [(1, [7])] 2 [9]).2 2 = some [9] :=
  ⟨(nodePut_spec [(1, [7])] 1 [9]).2.1 (by decide),
   ((nodePut_spec [(1, [7])] 2 [9]).2.2 (by decide)).2.1⟩
